import Mathlib

/-!
Verification development for the client-side encryption subsystem of a
browser-based encrypted photo vault: deterministic key derivation
(`deriveKey`), the AES-GCM file cipher (`encryptFile` / `decryptData`), the
blob wire format (`createEncryptedBlob` / `extractFromBlob`), and the session
state machine (`EncryptionProvider` / `EncryptionSetup`).

Byte sequences are modelled as `List Nat` with values below 256 where byte
identity matters.  The Web Crypto primitives (PBKDF2 and AES-GCM) are not part
of the repository; they are modelled from the spec as an ideal deterministic
key-derivation function and an ideal authenticated cipher.
-/

/-- Modelled from the spec: the text encoder (`TextEncoder.encode`) used by
`deriveKey` is a Web platform primitive, not repository code; it is modelled
as an injective byte encoding mapping each character to the three base-256
digits of its code point. -/
def encodeChar (c : Char) : List Nat :=
  [c.toNat / 65536, c.toNat / 256 % 256, c.toNat % 256]

/-- Byte encoding of a character list, three bytes per character. -/
def encodeChars : List Char → List Nat
  | [] => []
  | c :: cs => encodeChar c ++ encodeChars cs

/-- Byte encoding of a string. -/
def encodeString (s : String) : List Nat :=
  encodeChars s.data

/-- A derived symmetric key as produced by `deriveKey` in
`src/lib/encryption.ts`.  The PBKDF2 parameters and the AES-GCM key
configuration passed to `crypto.subtle.deriveKey` are recorded as fields;
the stretched key material itself is modelled (the PBKDF2 implementation is
a Web Crypto primitive, modelled from the spec as deterministic and
collision-free on its secret input) by the byte encoding of the secret
input string. -/
structure DerivedKey where
  kdfSalt : List Nat
  kdfIterations : Nat
  kdfHash : String
  algName : String
  algLength : Nat
  usages : List String
  secret : List Nat
deriving DecidableEq, Repr

/-- `deriveKey` from `src/lib/encryption.ts`: imports the concatenation
`email ++ passphrase` as PBKDF2 key material and derives a 256-bit AES-GCM
key using the fixed salt string "photovault-salt-v1", 100000 iterations and
SHA-256, restricted to the usages encrypt and decrypt. -/
def deriveKey (email : String) (passphrase : String) : DerivedKey :=
  { kdfSalt := encodeString "photovault-salt-v1"
    kdfIterations := 100000
    kdfHash := "SHA-256"
    algName := "AES-GCM"
    algLength := 256
    usages := ["encrypt", "decrypt"]
    secret := encodeString (email ++ passphrase) }

/-- Length framing used by the AES-GCM model: a block is preceded by its
length written in unary (that many 1 bytes, terminated by a 0 byte), so a
sequence of framed blocks is uniquely decodable. -/
def frame (xs : List Nat) : List Nat :=
  List.replicate xs.length 1 ++ 0 :: xs

/-- Modelled from the spec: the data an AES-GCM ciphertext is bound to —
the key material, the IV used, and the plaintext. -/
def gcmBody (key : DerivedKey) (iv plaintext : List Nat) : List Nat :=
  frame key.secret ++ frame iv ++ plaintext

/-- Modelled from the spec: the 128-bit (16-byte) authentication tag that
AES-GCM appends to the ciphertext, modelled as sixteen copies of a checksum
of the bound body. -/
def gcmTag (body : List Nat) : List Nat :=
  List.replicate 16 (body.sum % 256)

/-- Modelled from the spec: `crypto.subtle.encrypt` with AES-GCM (a Web
Crypto primitive, absent from the repository), idealized as an authenticated
cipher whose ciphertext-with-appended-tag is bound to the key, the IV and
the plaintext. -/
def aesGcmEncrypt (key : DerivedKey) (iv plaintext : List Nat) : List Nat :=
  gcmBody key iv plaintext ++ gcmTag (gcmBody key iv plaintext)

/-- Modelled from the spec: `crypto.subtle.decrypt` with AES-GCM, which per
the spec's FileCipher contract fails when the authentication tag does not
verify or when the IV length is not 12 bytes.  Decryption succeeds exactly
on ciphertexts produced with the same key and the same 12-byte IV, and then
returns the bound plaintext unchanged. -/
def aesGcmDecrypt (key : DerivedKey) (iv ct : List Nat) : Option (List Nat) :=
  if iv.length = 12 then
    if (frame key.secret).length + (frame iv).length + 16 ≤ ct.length then
      if ct = aesGcmEncrypt key iv
          ((ct.drop ((frame key.secret).length + (frame iv).length)).take
            (ct.length - ((frame key.secret).length + (frame iv).length) - 16)) then
        some ((ct.drop ((frame key.secret).length + (frame iv).length)).take
          (ct.length - ((frame key.secret).length + (frame iv).length) - 16))
      else none
    else none
  else none

/-- `encryptFile` from `src/lib/encryption.ts`: encrypts the file bytes with
AES-GCM under a fresh 96-bit IV and returns the ciphertext together with the
IV used.  The random 12-byte IV drawn from `crypto.getRandomValues` is passed
in as the `iv` argument. -/
def encryptFile (fileData : List Nat) (key : DerivedKey) (iv : List Nat) :
    List Nat × List Nat :=
  (aesGcmEncrypt key iv fileData, iv)

/-- `decryptData` from `src/lib/encryption.ts`: decrypts with AES-GCM using
the supplied IV and key; `none` models the rejected promise surfaced as
`DecryptionFailed`. -/
def decryptData (encryptedData : List Nat) (iv : List Nat) (key : DerivedKey) :
    Option (List Nat) :=
  aesGcmDecrypt key iv encryptedData

/-- `new Uint8Array(n)`: a zero-filled buffer of `n` bytes. -/
def uint8ArrayNew (n : Nat) : List Nat :=
  List.replicate n 0

/-- `dst.set(src, offset)`: overwrite `dst` with `src` starting at `offset`. -/
def uint8ArraySet (dst src : List Nat) (offset : Nat) : List Nat :=
  dst.take offset ++ src ++ dst.drop (offset + src.length)

/-- `createEncryptedBlob` from `src/lib/encryption.ts`: allocates
`iv.length + encryptedData.byteLength` bytes, writes the IV at offset 0 and
the ciphertext at offset `iv.length`.  The function performs no
validation. -/
def createEncryptedBlob (encryptedData : List Nat) (iv : List Nat) : List Nat :=
  uint8ArraySet
    (uint8ArraySet (uint8ArrayNew (iv.length + encryptedData.length)) iv 0)
    encryptedData iv.length

/-- `extractFromBlob` from `src/lib/encryption.ts`: returns
`subarray(0, 12)` (clamped to the blob length) as the IV and `subarray(12)`
as the ciphertext.  The function performs no validation. -/
def extractFromBlob (blob : List Nat) : List Nat × List Nat :=
  (blob.take 12, blob.drop 12)

/-- The spec's `pack` contract written from its words, for comparison with
`createEncryptedBlob`: fails with `InvalidIv` (modelled as `none`) when the
IV length is not 12, otherwise concatenates IV then ciphertext. -/
def specPack (ciphertext : List Nat) (iv : List Nat) : Option (List Nat) :=
  if iv.length = 12 then some (iv ++ ciphertext) else none

/-- The spec's `unpack` contract written from its words, for comparison with
`extractFromBlob`: fails with `TruncatedBlob` (modelled as `none`) when the
blob is shorter than 12 bytes, otherwise splits at offset 12. -/
def specUnpack (blob : List Nat) : Option (List Nat × List Nat) :=
  if blob.length < 12 then none else some (blob.take 12, blob.drop 12)

/-- The session state of the `EncryptionProvider` (`useEncryption` hook):
the in-memory key and the readiness flag. -/
structure SessionState where
  encryptionKey : Option DerivedKey
  isEncryptionReady : Bool
deriving DecidableEq, Repr

/-- JS truthiness of `user?.email` as tested by `setupEncryption`: a missing
user/email or an empty email string is falsy. -/
def emailPresent : Option String → Bool
  | none => false
  | some e => !(e == "")

/-- The effects of the setup path that the claims track: the network call
fetching the current user, and a call to `deriveKey`. -/
inductive Effect where
  | networkGetUser
  | deriveKeyCall (email : String) (passphrase : String)
deriving DecidableEq, Repr

/-- `setupEncryption` from the `EncryptionProvider`: fetches the current user
(a network call), throws — leaving the state unchanged — when no email is
present, and otherwise derives the key and sets both the key and the
readiness flag. -/
def setupEncryption (userEmail : Option String) (passphrase : String)
    (s : SessionState) : SessionState × List Effect :=
  match userEmail with
  | none => (s, [Effect.networkGetUser])
  | some e =>
    if e = "" then (s, [Effect.networkGetUser])
    else (⟨some (deriveKey e passphrase), true⟩,
      [Effect.networkGetUser, Effect.deriveKeyCall e passphrase])

/-- `clearEncryption` from the `EncryptionProvider`: unconditionally nulls
the key and drops the readiness flag. -/
def clearEncryption (_s : SessionState) : SessionState :=
  ⟨none, false⟩

/-- The operations on the session state enumerated by the session-invariant
claim. -/
inductive SessionEvent where
  | setup (userEmail : Option String) (passphrase : String)
  | clear
deriving DecidableEq, Repr

/-- One step of the session: `setupEncryption` (success or failure) or
`clearEncryption`. -/
def stepSession (s : SessionState) : SessionEvent → SessionState
  | SessionEvent.setup u p => (setupEncryption u p s).1
  | SessionEvent.clear => clearEncryption s

/-- The state at mount: both `useState` initialisers (`null` key, `false`
flag), then the mount effect, which re-asserts `isEncryptionReady := false`
when the durable "encryption_enabled" flag reads "true". -/
def initState (storedFlag : Option String) : SessionState :=
  if storedFlag = some "true" then
    { (⟨none, false⟩ : SessionState) with isEncryptionReady := false }
  else ⟨none, false⟩

/-- The session invariant: the readiness flag is true exactly when a key is
currently held. -/
def sessionInv (s : SessionState) : Prop :=
  s.isEncryptionReady = s.encryptionKey.isSome

/-- Outcome of `EncryptionSetup.handleSubmit`. -/
inductive SubmitOutcome where
  | weakPassphrase
  | submitted
deriving DecidableEq, Repr

/-- `handleSubmit` from the `EncryptionSetup` component
(`src/components/ImageEditor.tsx`): rejects a passphrase shorter than 8
characters before calling `setupEncryption`; otherwise it runs
`setupEncryption`.  Returns the outcome, the resulting session state and the
effects performed. -/
def handleSubmit (passphrase : String) (userEmail : Option String)
    (s : SessionState) : SubmitOutcome × SessionState × List Effect :=
  if passphrase.length < 8 then (SubmitOutcome.weakPassphrase, s, [])
  else
    (SubmitOutcome.submitted, (setupEncryption userEmail passphrase s).1,
      (setupEncryption userEmail passphrase s).2)

/-- A sample 12-byte IV used by concrete instances. -/
def sampleIv : List Nat :=
  [0, 1, 2, 3, 4, 5, 6, 7, 8, 9, 10, 11]

/-- A sample derived key, using the spec's scenario credentials. -/
def sampleKey : DerivedKey :=
  deriveKey "alice@example.com" "correct-horse"

/-! ### Helper lemmas about the byte encoding and framing -/

theorem length_frame (xs : List Nat) : (frame xs).length = 2 * xs.length + 1 := by
  simp [frame]
  omega

theorem replicate_one_cons_inj : ∀ (n m : Nat) (a b : List Nat),
    List.replicate n 1 ++ 0 :: a = List.replicate m 1 ++ 0 :: b → n = m ∧ a = b := by
  intro n
  induction n with
  | zero =>
    intro m a b h
    cases m with
    | zero => simpa using h
    | succ k => simp [List.replicate_succ] at h
  | succ k ih =>
    intro m a b h
    cases m with
    | zero => simp [List.replicate_succ] at h
    | succ m2 =>
      simp only [List.replicate_succ, List.cons_append, List.cons.injEq] at h
      obtain ⟨-, h2⟩ := h
      obtain ⟨h3, h4⟩ := ih m2 a b h2
      exact ⟨by omega, h4⟩

theorem frame_append_inj {x y a b : List Nat} (h : frame x ++ a = frame y ++ b) :
    x = y ∧ a = b := by
  have h2 : List.replicate x.length 1 ++ 0 :: (x ++ a)
      = List.replicate y.length 1 ++ 0 :: (y ++ b) := by
    simpa [frame, List.append_assoc] using h
  obtain ⟨hl, hr⟩ := replicate_one_cons_inj _ _ _ _ h2
  exact List.append_inj hr hl

theorem encodeChar_inj {c d : Char} (h : encodeChar c = encodeChar d) : c = d := by
  simp only [encodeChar, List.cons.injEq, and_true] at h
  obtain ⟨h1, h2, h3⟩ := h
  have hn : c.toNat = d.toNat := by omega
  have : Char.ofNat c.toNat = Char.ofNat d.toNat := by rw [hn]
  rwa [Char.ofNat_toNat, Char.ofNat_toNat] at this

theorem length_encodeChar (c : Char) : (encodeChar c).length = 3 := rfl

theorem encodeChars_inj : ∀ (l1 l2 : List Char),
    encodeChars l1 = encodeChars l2 → l1 = l2 := by
  intro l1
  induction l1 with
  | nil =>
    intro l2 h
    cases l2 with
    | nil => rfl
    | cons d ds => simp [encodeChars, encodeChar] at h
  | cons c cs ih =>
    intro l2 h
    cases l2 with
    | nil => simp [encodeChars, encodeChar] at h
    | cons d ds =>
      simp only [encodeChars] at h
      obtain ⟨h1, h2⟩ := List.append_inj h (by simp [length_encodeChar])
      rw [encodeChar_inj h1, ih ds h2]

theorem encodeString_inj {s t : String} (h : encodeString s = encodeString t) :
    s = t :=
  String.ext (encodeChars_inj _ _ h)

theorem list_sum_set (l : List Nat) : ∀ (i v : Nat), i < l.length →
    (l.set i v).sum + l.getD i 0 = l.sum + v := by
  induction l with
  | nil => intro i v h; simp at h
  | cons x xs ih =>
    intro i v h
    cases i with
    | zero => simp [List.set]; omega
    | succ j =>
      simp only [List.set, List.sum_cons, List.getD_cons_succ]
      have := ih j v (by simpa using h)
      omega

theorem list_set_ne (l : List Nat) (i v : Nat) (h : i < l.length)
    (hne : v ≠ l.getD i 0) : l.set i v ≠ l := by
  intro heq
  have h1 : (l.set i v).getD i 0 = v := by
    simp [List.getD_eq_getElem?_getD, List.getElem?_set_self h]
  rw [heq] at h1
  exact hne h1.symm

/-! ### Core lemmas about the AES-GCM model -/

theorem length_gcmTag (b : List Nat) : (gcmTag b).length = 16 := by
  simp [gcmTag]

theorem aesGcmEncrypt_repr (K : DerivedKey) (iv p : List Nat) :
    aesGcmEncrypt K iv p
      = (frame K.secret ++ frame iv) ++ (p ++ gcmTag (gcmBody K iv p)) := by
  simp [aesGcmEncrypt, gcmBody, List.append_assoc]

theorem length_aesGcmEncrypt (K : DerivedKey) (iv p : List Nat) :
    (aesGcmEncrypt K iv p).length
      = (frame K.secret).length + (frame iv).length + p.length + 16 := by
  simp [aesGcmEncrypt, gcmBody, gcmTag, List.length_append]
  omega

theorem aesGcmEncrypt_extract (K : DerivedKey) (iv p : List Nat) :
    ((aesGcmEncrypt K iv p).drop ((frame K.secret).length + (frame iv).length)).take
      ((aesGcmEncrypt K iv p).length - ((frame K.secret).length + (frame iv).length) - 16)
      = p := by
  rw [length_aesGcmEncrypt]
  have harith : (frame K.secret).length + (frame iv).length + p.length + 16
      - ((frame K.secret).length + (frame iv).length) - 16 = p.length := by omega
  rw [harith, aesGcmEncrypt_repr]
  have hd : ((frame K.secret ++ frame iv) ++ (p ++ gcmTag (gcmBody K iv p))).drop
      ((frame K.secret).length + (frame iv).length) = p ++ gcmTag (gcmBody K iv p) := by
    have h2 := List.drop_left (frame K.secret ++ frame iv) (p ++ gcmTag (gcmBody K iv p))
    rw [List.length_append] at h2
    exact h2
  rw [hd]
  exact List.take_left p _

theorem aesGcmDecrypt_some_iff {K : DerivedKey} {iv ct p : List Nat} :
    aesGcmDecrypt K iv ct = some p ↔ iv.length = 12 ∧ ct = aesGcmEncrypt K iv p := by
  constructor
  · intro h
    unfold aesGcmDecrypt at h
    split at h
    · split at h
      · split at h
        · rename_i hiv hle hct
          obtain rfl := Option.some.inj h
          exact ⟨hiv, hct⟩
        · exact absurd h (by simp)
      · exact absurd h (by simp)
    · exact absurd h (by simp)
  · rintro ⟨hiv, rfl⟩
    unfold aesGcmDecrypt
    rw [if_pos hiv]
    have hlen := length_aesGcmEncrypt K iv p
    rw [if_pos (by omega)]
    rw [aesGcmEncrypt_extract]
    rw [if_pos rfl]

theorem aesGcmDecrypt_encrypt (K : DerivedKey) (iv p : List Nat)
    (hiv : iv.length = 12) :
    aesGcmDecrypt K iv (aesGcmEncrypt K iv p) = some p :=
  aesGcmDecrypt_some_iff.mpr ⟨hiv, rfl⟩

theorem aesGcmEncrypt_inj {K1 K2 : DerivedKey} {iv1 iv2 p q : List Nat}
    (h : aesGcmEncrypt K1 iv1 p = aesGcmEncrypt K2 iv2 q) :
    K1.secret = K2.secret ∧ iv1 = iv2 ∧ p = q := by
  have h2 : frame K1.secret ++ (frame iv1 ++ (p ++ gcmTag (gcmBody K1 iv1 p)))
      = frame K2.secret ++ (frame iv2 ++ (q ++ gcmTag (gcmBody K2 iv2 q))) := by
    simpa [aesGcmEncrypt, gcmBody, List.append_assoc] using h
  obtain ⟨hs, h3⟩ := frame_append_inj h2
  obtain ⟨hiv, h4⟩ := frame_append_inj h3
  obtain ⟨hp, -⟩ := List.append_inj' h4 (by simp [gcmTag])
  exact ⟨hs, hiv, hp⟩

theorem aesGcmDecrypt_wrong_iv (K : DerivedKey) (iv ct : List Nat)
    (h : iv.length ≠ 12) : aesGcmDecrypt K iv ct = none := by
  unfold aesGcmDecrypt
  rw [if_neg h]

theorem gcmBody_eq (K : DerivedKey) (iv p : List Nat) :
    gcmBody K iv p = (frame K.secret ++ frame iv) ++ p := by
  simp [gcmBody, List.append_assoc]

theorem replicate_getD_zero (c : Nat) : (List.replicate 16 c).getD 0 0 = c := by
  rw [List.getD_eq_getElem _ _ (by simp)]
  simp

theorem tamper_flip_neq (A P q : List Nat) (j v : Nat)
    (hP : ∀ b ∈ P, b < 256) (hv : v < 256)
    (hj : j < (A ++ (P ++ gcmTag (A ++ P))).length)
    (hne : v ≠ (A ++ (P ++ gcmTag (A ++ P))).getD j 0)
    (hEq : (A ++ (P ++ gcmTag (A ++ P))).set j v = A ++ (q ++ gcmTag (A ++ q))) :
    False := by
  have hTlen : (gcmTag (A ++ P)).length = 16 := length_gcmTag _
  have hT2len : (gcmTag (A ++ q)).length = 16 := length_gcmTag _
  rcases Nat.lt_or_ge j A.length with hcase | hcase
  · -- the flipped byte lies in the framed key/IV prefix
    rw [List.set_append_left j v hcase] at hEq
    obtain ⟨hset, -⟩ := List.append_inj hEq (by simp)
    rw [List.getD_append A (P ++ gcmTag (A ++ P)) 0 j hcase] at hne
    exact list_set_ne A j v hcase hne hset
  · rw [List.set_append_right j v hcase] at hEq
    have hEq2 := List.append_cancel_left hEq
    rw [List.getD_append_right A (P ++ gcmTag (A ++ P)) 0 j hcase] at hne
    rw [List.length_append, List.length_append, hTlen] at hj
    rcases Nat.lt_or_ge (j - A.length) P.length with hc2 | hc2
    · -- the flipped byte lies in the plaintext region: the checksum changes
      rw [List.set_append_left (j - A.length) v hc2] at hEq2
      obtain ⟨hq, hTT⟩ := List.append_inj' hEq2 (by rw [hTlen, hT2len])
      rw [List.getD_append P (gcmTag (A ++ P)) 0 (j - A.length) hc2] at hne
      have hsum := list_sum_set P (j - A.length) v hc2
      have hPj : P.getD (j - A.length) 0 < 256 := by
        have hmem : P.getD (j - A.length) 0 ∈ P := by
          rw [List.getD_eq_getElem P 0 hc2]
          exact List.getElem_mem hc2
        exact hP _ hmem
      have h0 : (gcmTag (A ++ P)).getD 0 0 = (gcmTag (A ++ q)).getD 0 0 := by
        rw [hTT]
      simp only [gcmTag, replicate_getD_zero] at h0
      rw [← hq] at h0
      rw [List.sum_append, List.sum_append] at h0
      omega
    · -- the flipped byte lies in the tag region: the stored tag is stale
      rw [List.set_append_right (j - A.length) v hc2] at hEq2
      rw [List.getD_append_right P (gcmTag (A ++ P)) 0 (j - A.length) hc2] at hne
      obtain ⟨hq, hTT⟩ := List.append_inj' hEq2 (by simp [hTlen, hT2len])
      rw [← hq] at hTT
      have hlt : j - A.length - P.length < (gcmTag (A ++ P)).length := by
        rw [hTlen]
        omega
      exact list_set_ne _ _ _ hlt hne hTT

theorem aesGcmDecrypt_tamper (K : DerivedKey) (iv P : List Nat)
    (hP : ∀ b ∈ P, b < 256) (j v : Nat)
    (hj : j < (aesGcmEncrypt K iv P).length) (hv : v < 256)
    (hne : v ≠ (aesGcmEncrypt K iv P).getD j 0) :
    aesGcmDecrypt K iv ((aesGcmEncrypt K iv P).set j v) = none := by
  cases hD : aesGcmDecrypt K iv ((aesGcmEncrypt K iv P).set j v) with
  | none => rfl
  | some q =>
    exfalso
    obtain ⟨-, hEq⟩ := aesGcmDecrypt_some_iff.mp hD
    rw [aesGcmEncrypt_repr K iv P, gcmBody_eq K iv P] at hj hne hEq
    rw [aesGcmEncrypt_repr K iv q, gcmBody_eq K iv q] at hEq
    exact tamper_flip_neq (frame K.secret ++ frame iv) P q j v hP hv hj hne hEq

/-! ### The blob codec as plain concatenation -/

theorem createEncryptedBlob_eq (encryptedData iv : List Nat) :
    createEncryptedBlob encryptedData iv = iv ++ encryptedData := by
  unfold createEncryptedBlob uint8ArraySet uint8ArrayNew
  have h1 : (List.replicate (iv.length + encryptedData.length) (0:Nat)).drop
      (0 + iv.length) = List.replicate encryptedData.length 0 := by
    rw [Nat.zero_add, List.drop_replicate, Nat.add_sub_cancel_left]
  rw [List.take_zero, List.nil_append, h1]
  have h2 : (iv ++ List.replicate encryptedData.length (0:Nat)).take iv.length
      = iv := List.take_left iv _
  have h3 : (iv ++ List.replicate encryptedData.length (0:Nat)).drop
      (iv.length + encryptedData.length) = [] := by
    apply List.drop_of_length_le
    simp
  rw [h2, h3, List.append_nil]

/-! ### Claim theorems -/

/-- C1: Round-trip — for every plaintext byte sequence `P` and every key
derived by `deriveKey`, encrypting `P` with `encryptFile` (under its fresh
12-byte IV), packing ciphertext and IV with `createEncryptedBlob`, unpacking
with `extractFromBlob`, and decrypting the unpacked ciphertext with the
unpacked IV and the same key yields exactly `P`. -/
theorem claim1_round_trip (P : List Nat) (email passphrase : String)
    (iv : List Nat) (hiv : iv.length = 12) :
    decryptData
      (extractFromBlob (createEncryptedBlob
        (encryptFile P (deriveKey email passphrase) iv).1
        (encryptFile P (deriveKey email passphrase) iv).2)).2
      (extractFromBlob (createEncryptedBlob
        (encryptFile P (deriveKey email passphrase) iv).1
        (encryptFile P (deriveKey email passphrase) iv).2)).1
      (deriveKey email passphrase) = some P := by
  have ht : (iv ++ aesGcmEncrypt (deriveKey email passphrase) iv P).take 12
      = iv := by
    rw [← hiv]
    exact List.take_left iv _
  have hd : (iv ++ aesGcmEncrypt (deriveKey email passphrase) iv P).drop 12
      = aesGcmEncrypt (deriveKey email passphrase) iv P := by
    rw [← hiv]
    exact List.drop_left iv _
  simp only [encryptFile, createEncryptedBlob_eq, extractFromBlob, decryptData,
    ht, hd]
  exact aesGcmDecrypt_encrypt _ iv P hiv

theorem claim1_round_trip_witness :
    sampleIv.length = 12
    ∧ decryptData
        (extractFromBlob (createEncryptedBlob
          (encryptFile [1, 2, 3, 4, 5]
            (deriveKey "alice@example.com" "correct-horse") sampleIv).1
          (encryptFile [1, 2, 3, 4, 5]
            (deriveKey "alice@example.com" "correct-horse") sampleIv).2)).2
        (extractFromBlob (createEncryptedBlob
          (encryptFile [1, 2, 3, 4, 5]
            (deriveKey "alice@example.com" "correct-horse") sampleIv).1
          (encryptFile [1, 2, 3, 4, 5]
            (deriveKey "alice@example.com" "correct-horse") sampleIv).2)).1
        (deriveKey "alice@example.com" "correct-horse") = some [1, 2, 3, 4, 5] :=
  ⟨by decide, claim1_round_trip [1, 2, 3, 4, 5] "alice@example.com"
    "correct-horse" sampleIv (by decide)⟩

/-- C2: `deriveKey` is a pure deterministic function of (identity,
passphrase): it concatenates identity and passphrase into one secret input,
stretches it with PBKDF2 under the fixed hard-coded salt, 100000 (order of
ten to the fifth) iterations and SHA-256, and uses the output as a 256-bit
AES-GCM key restricted to encrypt/decrypt; identical inputs give identical
keys, and the key decrypts its own ciphertext interchangeably. -/
theorem claim2_deriveKey_deterministic (email passphrase : String)
    (P iv : List Nat) (hiv : iv.length = 12) :
    deriveKey email passphrase = deriveKey email passphrase
    ∧ (deriveKey email passphrase).secret = encodeString (email ++ passphrase)
    ∧ (deriveKey email passphrase).kdfSalt = encodeString "photovault-salt-v1"
    ∧ (deriveKey email passphrase).kdfIterations = 100000
    ∧ (deriveKey email passphrase).kdfHash = "SHA-256"
    ∧ (deriveKey email passphrase).algName = "AES-GCM"
    ∧ (deriveKey email passphrase).algLength = 256
    ∧ (deriveKey email passphrase).usages = ["encrypt", "decrypt"]
    ∧ decryptData (encryptFile P (deriveKey email passphrase) iv).1 iv
        (deriveKey email passphrase) = some P := by
  refine ⟨rfl, rfl, rfl, rfl, rfl, rfl, rfl, rfl, ?_⟩
  exact aesGcmDecrypt_encrypt _ iv P hiv

theorem claim2_deriveKey_deterministic_witness :
    sampleIv.length = 12
    ∧ decryptData
        (encryptFile [1, 2, 3] (deriveKey "alice@example.com" "correct-horse")
          sampleIv).1 sampleIv
        (deriveKey "alice@example.com" "correct-horse") = some [1, 2, 3] :=
  ⟨by decide, (claim2_deriveKey_deterministic "alice@example.com"
    "correct-horse" [1, 2, 3] sampleIv (by decide)).2.2.2.2.2.2.2.2⟩

/-- C4: Key separation — for every passphrase and every pair of distinct
identities, a ciphertext produced under the key derived from one identity
does not successfully decrypt under the key derived from the other
(decryptData fails rather than returning plaintext); stated for arbitrary
role assignment, which also gives the converse direction by swapping the
identities. -/
theorem claim4_key_separation (idA idB pass : String) (hne : idA ≠ idB)
    (P iv : List Nat) :
    decryptData (encryptFile P (deriveKey idA pass) iv).1 iv
      (deriveKey idB pass) = none := by
  cases hD : decryptData (encryptFile P (deriveKey idA pass) iv).1 iv
      (deriveKey idB pass) with
  | none => rfl
  | some q =>
    exfalso
    have hD2 : aesGcmDecrypt (deriveKey idB pass) iv
        (aesGcmEncrypt (deriveKey idA pass) iv P) = some q := hD
    obtain ⟨-, hEq⟩ := aesGcmDecrypt_some_iff.mp hD2
    obtain ⟨hs, -, -⟩ := aesGcmEncrypt_inj hEq
    have h3 := encodeString_inj hs
    apply hne
    have h4 := congrArg String.data h3
    rw [String.data_append, String.data_append] at h4
    exact String.ext (List.append_cancel_right h4)

theorem claim4_key_separation_witness :
    decryptData
      (encryptFile [1, 2, 3, 4, 5]
        (deriveKey "alice@example.com" "correct-horse") sampleIv).1
      sampleIv (deriveKey "bob@example.com" "correct-horse") = none :=
  claim4_key_separation "alice@example.com" "bob@example.com" "correct-horse"
    (by decide) [1, 2, 3, 4, 5] sampleIv

/-- C5: Wire-format invariant — for every 12-byte IV and every ciphertext,
the blob built by `createEncryptedBlob` has length 12 plus the ciphertext
length (hence at least 12), carries the IV in bytes 0 to 12 and the
ciphertext from byte 12 on, and is exactly the concatenation `iv ++ ct`
with no version byte, length prefix or compression. -/
theorem claim5_wire_format (ct iv : List Nat) (hiv : iv.length = 12) :
    (createEncryptedBlob ct iv).length = 12 + ct.length
    ∧ 12 ≤ (createEncryptedBlob ct iv).length
    ∧ (createEncryptedBlob ct iv).take 12 = iv
    ∧ (createEncryptedBlob ct iv).drop 12 = ct
    ∧ createEncryptedBlob ct iv = iv ++ ct := by
  have he := createEncryptedBlob_eq ct iv
  refine ⟨?_, ?_, ?_, ?_, he⟩
  · rw [he, List.length_append, hiv]
  · rw [he, List.length_append, hiv]
    omega
  · rw [he, ← hiv]
    exact List.take_left iv ct
  · rw [he, ← hiv]
    exact List.drop_left iv ct

theorem claim5_wire_format_witness :
    sampleIv.length = 12
    ∧ createEncryptedBlob [9, 9, 9] sampleIv = sampleIv ++ [9, 9, 9] :=
  ⟨by decide, (claim5_wire_format [9, 9, 9] sampleIv (by decide)).2.2.2.2⟩

/-- C3: `decryptData` fails (and never returns partial or altered plaintext:
it only ever succeeds on an exact encryption, returning its exact plaintext)
when the authentication tag does not verify — in particular, flipping any
single byte in the ciphertext region of a packed blob makes decryption of
the unpacked result fail — or when the supplied IV length is not 12 bytes. -/
theorem claim3_decrypt_auth_failure :
    (∀ (ct iv p : List Nat) (K : DerivedKey),
      decryptData ct iv K = some p → ct = aesGcmEncrypt K iv p)
    ∧ (∀ (P iv : List Nat) (K : DerivedKey), iv.length = 12 →
        (∀ b ∈ P, b < 256) →
        ∀ (i v : Nat), 12 ≤ i →
          i < (createEncryptedBlob (encryptFile P K iv).1 iv).length →
          v < 256 →
          v ≠ (createEncryptedBlob (encryptFile P K iv).1 iv).getD i 0 →
          decryptData
            (extractFromBlob
              ((createEncryptedBlob (encryptFile P K iv).1 iv).set i v)).2
            (extractFromBlob
              ((createEncryptedBlob (encryptFile P K iv).1 iv).set i v)).1
            K = none)
    ∧ (∀ (ct iv : List Nat) (K : DerivedKey), iv.length ≠ 12 →
        decryptData ct iv K = none) := by
  refine ⟨?_, ?_, ?_⟩
  · intro ct iv p K h
    exact (aesGcmDecrypt_some_iff.mp h).2
  · intro P iv K hiv hP i v hi12 hilen hv hne
    have hge : iv.length ≤ i := by rw [hiv]; exact hi12
    simp only [encryptFile, createEncryptedBlob_eq, List.length_append]
      at hilen hne ⊢
    rw [List.getD_append_right iv (aesGcmEncrypt K iv P) 0 i hge] at hne
    rw [List.set_append_right i v hge]
    simp only [extractFromBlob, decryptData]
    have ht : (iv ++ (aesGcmEncrypt K iv P).set (i - iv.length) v).take 12
        = iv := by
      rw [← hiv]
      exact List.take_left iv _
    have hd : (iv ++ (aesGcmEncrypt K iv P).set (i - iv.length) v).drop 12
        = (aesGcmEncrypt K iv P).set (i - iv.length) v := by
      rw [← hiv]
      exact List.drop_left iv _
    rw [ht, hd]
    exact aesGcmDecrypt_tamper K iv P hP (i - iv.length) v (by omega) hv hne
  · intro ct iv K h
    exact aesGcmDecrypt_wrong_iv K iv ct h

set_option maxRecDepth 8192 in
theorem claim3_decrypt_auth_failure_witness :
    decryptData
      (extractFromBlob
        ((createEncryptedBlob (encryptFile [5] sampleKey sampleIv).1
          sampleIv).set 12 0)).2
      (extractFromBlob
        ((createEncryptedBlob (encryptFile [5] sampleKey sampleIv).1
          sampleIv).set 12 0)).1
      sampleKey = none
    ∧ decryptData [1, 2, 3] [1, 2] sampleKey = none :=
  ⟨claim3_decrypt_auth_failure.2.1 [5] sampleIv sampleKey (by decide)
      (by decide) 12 0 (by decide) (by decide) (by decide) (by decide),
    claim3_decrypt_auth_failure.2.2 [1, 2, 3] [1, 2] sampleKey (by decide)⟩

/-- C6 (counterexample): the claim asserts `extractFromBlob` fails with
`TruncatedBlob` on blobs shorter than 12 bytes, but the code performs no
length check: on the 8-byte blob it returns the whole blob as the IV with an
empty ciphertext, where the spec's `unpack` contract fails. -/
theorem claim6_counterexample :
    extractFromBlob [1, 2, 3, 4, 5, 6, 7, 8] = ([1, 2, 3, 4, 5, 6, 7, 8], [])
    ∧ specUnpack [1, 2, 3, 4, 5, 6, 7, 8] = none := by
  exact ⟨by decide, by decide⟩

/-- C6 (amended): `extractFromBlob` never fails and performs no validation:
on every blob it returns `(take 12, drop 12)`; on a blob shorter than 12
bytes it returns the entire blob (shorter than 12) as the IV with an empty
ciphertext instead of failing; on exactly 12 bytes it returns the 12 bytes
as the IV unchanged with an empty ciphertext; on longer blobs it returns the
first 12 bytes as the IV and the remainder as the ciphertext. -/
theorem claim6_extract_no_validation (blob : List Nat) :
    extractFromBlob blob = (blob.take 12, blob.drop 12)
    ∧ (blob.length < 12 →
        extractFromBlob blob = (blob, [])
        ∧ (extractFromBlob blob).1.length < 12)
    ∧ (blob.length = 12 → extractFromBlob blob = (blob, []))
    ∧ (12 ≤ blob.length →
        (extractFromBlob blob).1 = blob.take 12
        ∧ (extractFromBlob blob).2 = blob.drop 12
        ∧ (extractFromBlob blob).1.length = 12
        ∧ (extractFromBlob blob).1 ++ (extractFromBlob blob).2 = blob) := by
  refine ⟨rfl, ?_, ?_, ?_⟩
  · intro h
    constructor
    · unfold extractFromBlob
      rw [List.take_of_length_le (by omega), List.drop_of_length_le (by omega)]
    · unfold extractFromBlob
      simp only [List.length_take]
      omega
  · intro h
    unfold extractFromBlob
    rw [List.take_of_length_le (by omega), List.drop_of_length_le (by omega)]
  · intro h
    refine ⟨rfl, rfl, ?_, ?_⟩
    · unfold extractFromBlob
      simp only [List.length_take]
      omega
    · exact List.take_append_drop 12 blob

theorem claim6_extract_no_validation_witness :
    extractFromBlob [0, 1, 2, 3, 4, 5, 6, 7, 8, 9, 10, 11]
      = ([0, 1, 2, 3, 4, 5, 6, 7, 8, 9, 10, 11], []) :=
  (claim6_extract_no_validation
    [0, 1, 2, 3, 4, 5, 6, 7, 8, 9, 10, 11]).2.2.1 (by decide)

/-- C7 (counterexample): the claim asserts `createEncryptedBlob` fails with
`InvalidIv` when the IV length is not 12 bytes, but the code performs no IV
check: on an 11-byte IV it succeeds and concatenates, where the spec's
`pack` contract fails. -/
theorem claim7_counterexample :
    specPack [9] [1, 2, 3, 4, 5, 6, 7, 8, 9, 10, 11] = none
    ∧ createEncryptedBlob [9] [1, 2, 3, 4, 5, 6, 7, 8, 9, 10, 11]
        = [1, 2, 3, 4, 5, 6, 7, 8, 9, 10, 11, 9] := by
  exact ⟨by decide, by decide⟩

/-- C7 (amended): `createEncryptedBlob` performs no IV-length validation and
never fails; for every IV — 12 bytes or not — it concatenates the IV and
then the ciphertext into one byte sequence. -/
theorem claim7_pack_no_validation (ct iv : List Nat) :
    createEncryptedBlob ct iv = iv ++ ct :=
  createEncryptedBlob_eq ct iv

/-- C8: For every passphrase shorter than 8 characters, the setup path
(`EncryptionSetup.handleSubmit`) rejects it as a weak passphrase before any
key material is derived and before any network call is made: the outcome is
the weak-passphrase rejection, the session state is unchanged, and the list
of performed effects (network fetch of the user, `deriveKey` call) is
empty. -/
theorem claim8_weak_passphrase_rejected (passphrase : String)
    (userEmail : Option String) (s : SessionState)
    (h : passphrase.length < 8) :
    handleSubmit passphrase userEmail s
      = (SubmitOutcome.weakPassphrase, s, []) := by
  unfold handleSubmit
  rw [if_pos h]

theorem claim8_weak_passphrase_rejected_witness :
    handleSubmit "short" (some "alice@example.com") ⟨none, false⟩
      = (SubmitOutcome.weakPassphrase, ⟨none, false⟩, []) :=
  claim8_weak_passphrase_rejected "short" (some "alice@example.com")
    ⟨none, false⟩ (by decide)

/-- C9: Session-state invariant — `isEncryptionReady` is true exactly when
`encryptionKey` is non-null; the equivalence holds in the initial mount
state (for every durable-flag value) and is preserved by every session
operation; moreover `setupEncryption` with a missing identity changes
nothing, `setupEncryption` on success sets both the key and the flag, and
`clearEncryption` unconditionally nulls the key and drops readiness. -/
theorem claim9_session_invariant :
    (∀ flag, sessionInv (initState flag))
    ∧ (∀ (s : SessionState) (e : SessionEvent),
        sessionInv s → sessionInv (stepSession s e))
    ∧ (∀ (s : SessionState) (u : Option String) (p : String),
        emailPresent u = false → stepSession s (SessionEvent.setup u p) = s)
    ∧ (∀ (s : SessionState) (e p : String), e ≠ "" →
        stepSession s (SessionEvent.setup (some e) p)
          = ⟨some (deriveKey e p), true⟩)
    ∧ (∀ s : SessionState, stepSession s SessionEvent.clear = ⟨none, false⟩) := by
  refine ⟨?_, ?_, ?_, ?_, ?_⟩
  · intro flag
    unfold initState
    split
    · simp [sessionInv]
    · simp [sessionInv]
  · intro s e h
    cases e with
    | clear => simp [stepSession, clearEncryption, sessionInv]
    | setup u p =>
      cases u with
      | none => exact h
      | some e2 =>
        simp only [stepSession, setupEncryption]
        split
        · exact h
        · simp [sessionInv]
  · intro s u p h
    cases u with
    | none => rfl
    | some e2 =>
      have h2 : e2 = "" := by simpa [emailPresent] using h
      simp only [stepSession, setupEncryption]
      rw [if_pos h2]
  · intro s e p h
    simp only [stepSession, setupEncryption]
    rw [if_neg h]
  · intro s
    rfl

theorem claim9_session_invariant_witness :
    sessionInv (stepSession ⟨none, false⟩
      (SessionEvent.setup (some "alice@example.com") "correct-horse"))
    ∧ stepSession ⟨some sampleKey, true⟩ SessionEvent.clear = ⟨none, false⟩
    ∧ stepSession ⟨none, false⟩ (SessionEvent.setup none "correct-horse")
        = ⟨none, false⟩ :=
  ⟨claim9_session_invariant.2.1 ⟨none, false⟩
      (SessionEvent.setup (some "alice@example.com") "correct-horse") rfl,
    claim9_session_invariant.2.2.2.2 ⟨some sampleKey, true⟩,
    claim9_session_invariant.2.2.1 ⟨none, false⟩ none "correct-horse" rfl⟩

/-- C10: Implicit consequence of feeding the unseparated concatenation
`identity ++ passphrase` into the KDF — the distinct credential pairs
("alice@x", "ssecret12") and ("alice@xs", "secret12") concatenate to the
same secret input, so `deriveKey` returns identical keys for them, and a
ciphertext produced under one pair decrypts successfully under the other. -/
theorem claim10_concatenation_collision :
    deriveKey "alice@x" "ssecret12" = deriveKey "alice@xs" "secret12"
    ∧ ("alice@x", "ssecret12") ≠ (("alice@xs", "secret12") : String × String)
    ∧ decryptData
        (encryptFile [1, 2, 3] (deriveKey "alice@x" "ssecret12") sampleIv).1
        sampleIv (deriveKey "alice@xs" "secret12") = some [1, 2, 3] := by
  have hk : deriveKey "alice@x" "ssecret12" = deriveKey "alice@xs" "secret12" := by
    decide
  refine ⟨hk, by decide, ?_⟩
  rw [← hk]
  exact aesGcmDecrypt_encrypt (deriveKey "alice@x" "ssecret12") sampleIv
    [1, 2, 3] (by decide)
